import Mathlib

/-!
A verification development for the core data structures of the forth3
embeddable Forth VM: the dictionary bump arena and entry builder
(dictionary.rs), the shared-dictionary reference counting (dictionary.rs),
the two-slot block cache (disk.rs), the asynchronous inner-interpreter
step and line processing (vm/async_vm.rs), and the bit-operation builtins
(vm/builtins/bitops.rs).

Machine pointers and usize values are modelled as natural numbers with
wrapping arithmetic made explicit modulo 2^64 where the source uses
wrapping operations.
-/

set_option autoImplicit false

namespace Forth3

/-- The modulus of usize arithmetic on a 64-bit host. -/
def USIZE_WRAP : Nat := 2 ^ 64

/-- Rust ptr::wrapping_add on a 64-bit host. -/
def wrapping_add (a b : Nat) : Nat := (a + b) % USIZE_WRAP

/-- Allocation failures of the dictionary bump arena (dictionary.rs, BumpError). -/
inductive BumpError where
  | OutOfMemory
  | CantAllocUtf8
  deriving DecidableEq, Repr

/-- The dictionary bump arena (dictionary.rs, DictionaryBump): raw start,
current cursor, and end pointers, modelled as addresses below 2^64. -/
structure DictionaryBump where
  start : Nat
  cur : Nat
  end_ : Nat
  deriving DecidableEq, Repr

namespace DictionaryBump

/-- dictionary.rs, DictionaryBump::new: the arena covering size bytes from
bottom; end is bottom.wrapping_add(size). -/
def new (bottom size : Nat) : DictionaryBump :=
  { start := bottom, cur := bottom, end_ := wrapping_add bottom size }

/-- dictionary.rs, DictionaryBump::bump_u8s: reserve n raw bytes. Returns
the pointer to the reserved bytes and the updated arena, or none when
n = 0 or the (wrapping) requested cursor exceeds end. -/
def bump_u8s (b : DictionaryBump) (n : Nat) : Option (Nat × DictionaryBump) :=
  if n = 0 then
    none
  else
    let req := wrapping_add b.cur n
    if req > b.end_ then
      none
    else
      some (b.cur, { b with cur := req })

/-- dictionary.rs, DictionaryBump::bump_u8: reserve one byte. -/
def bump_u8 (b : DictionaryBump) : Option (Nat × DictionaryBump) :=
  if b.cur ≥ b.end_ then
    none
  else
    some (b.cur, { b with cur := wrapping_add b.cur 1 })

/-- Rust align_offset for a power-of-two alignment: the distance from cur
up to the next multiple of align. -/
def align_offset (cur align : Nat) : Nat := (align - cur % align) % align

/-- dictionary.rs, DictionaryBump::bump::<T> for a type of the given size
and alignment: align the cursor (padding bytes are zeroed in the source;
the cursor itself only moves in the success branch), then reserve size
bytes. Returns the aligned pointer and the updated arena. -/
def bump (b : DictionaryBump) (size align : Nat) :
    Except BumpError (Nat × DictionaryBump) :=
  let offset := align_offset b.cur align
  let align_cur := wrapping_add b.cur offset
  let new_cur := wrapping_add align_cur size
  if new_cur > b.end_ then
    .error .OutOfMemory
  else
    .ok (align_cur, { b with cur := new_cur })

/-- Is a byte ASCII (u8::is_ascii)? -/
def is_ascii (c : Nat) : Bool := c ≤ 127

/-- u8::to_ascii_lowercase: fold an ASCII uppercase letter to lowercase. -/
def to_ascii_lowercase (c : Nat) : Nat :=
  if 65 ≤ c ∧ c ≤ 90 then c + 32 else c

/-- dictionary.rs, DictionaryBump::bump_str: take at most the first 31
bytes of s, fail with CantAllocUtf8 if any of those bytes is non-ASCII,
otherwise reserve them and store them case-folded. The stored name is
returned as the byte list the resulting FaStr denotes, together with the
updated arena. (The source only debug-asserts non-emptiness; with an
empty input the inner bump_u8s 0 returns none, surfacing OutOfMemory.) -/
def bump_str (b : DictionaryBump) (s : List Nat) :
    Except BumpError (List Nat × DictionaryBump) :=
  let len := min s.length 31
  let astr := s.take len
  if ¬ astr.all is_ascii then
    .error .CantAllocUtf8
  else
    match b.bump_u8s len with
    | none => .error .OutOfMemory
    | some (_, b') => .ok (astr.map to_ascii_lowercase, b')

/-- dictionary.rs, DictionaryBump::used. -/
def used (b : DictionaryBump) : Nat := b.cur - b.start

/-- dictionary.rs, DictionaryBump::capacity. -/
def capacity (b : DictionaryBump) : Nat := b.end_ - b.start

end DictionaryBump

/-- dictionary.rs, EntryKind: the kind tag of a dictionary entry header. -/
inductive EntryKind where
  | StaticBuiltin
  | RuntimeBuiltin
  | Dictionary
  | AsyncBuiltin
  deriving DecidableEq, Repr

/-- Size in bytes of DictionaryEntry sans parameter field on a 64-bit host:
EntryHeader (FaStr 16 + kind 2 + len 2 + padding 4 = 24, three words per the
size test in dictionary.rs) + func 8 + link 8. -/
def DICT_ENTRY_SIZE : Nat := 40

/-- Alignment of DictionaryEntry on a 64-bit host (word-aligned). -/
def DICT_ENTRY_ALIGN : Nat := 8

/-- Size in bytes of one Word cell on a 64-bit host. -/
def WORD_SIZE : Nat := 8

/-- Alignment of one Word cell on a 64-bit host. -/
def WORD_ALIGN : Nat := 8

/-- A materialized dictionary entry (dictionary.rs, DictionaryEntry): the
header fields (name as the byte list the FaStr denotes, kind tag, parameter
field length in cells), the code-field function pointer (opaque id), and
the link to the previous entry (an arena address, or none). The trailing
parameter field lives in the arena after the entry; its cell contents are
tracked by the bump cursor, not by this record. -/
structure Entry where
  name : List Nat
  kind : EntryKind
  len : Nat
  func : Nat
  link : Option Nat
  deriving DecidableEq, Repr

/-- The mutable dictionary (dictionary.rs, Dictionary): a bump arena, the
tail pointer to the most recently linked entry, and the entries written
into the arena, keyed by their address. Freshly written entries are
prepended, so an address lookup finds the most recent write. The refcount
and parent fields are modelled separately for the sharing claims. -/
structure Dict where
  alloc : DictionaryBump
  tail : Option Nat
  heap : List (Nat × Entry)
  deriving DecidableEq, Repr

/-- dictionary.rs, EntryBuilder: the in-progress entry. base is the arena
address reserved for the header; len counts parameter cells appended so
far; kind is written at finish. -/
structure EntryBuilder where
  base : Nat
  len : Nat
  kind : EntryKind
  deriving DecidableEq, Repr

namespace Dict

/-- Read the entry at an arena address (first write wins, i.e. the most
recent one, since writes are prepended). -/
def heapFind (heap : List (Nat × Entry)) (a : Nat) : Option Entry :=
  match heap with
  | [] => none
  | (a', e) :: rest => if a' = a then some e else heapFind rest a

/-- The addresses and entries reachable from a starting link by following
link fields (dictionary.rs, Entries iterator, without the parent hop).
Fuel bounds the walk so the function is total even on cyclic heaps. -/
def chainFrom (heap : List (Nat × Entry)) : Option Nat → Nat → List (Nat × Entry)
  | none, _ => []
  | some _, 0 => []
  | some a, fuel + 1 =>
    match heapFind heap a with
    | none => []
    | some e => (a, e) :: chainFrom heap e.link fuel

/-- All entries reachable from the dictionary tail. -/
def reachableEntries (d : Dict) : List (Nat × Entry) :=
  chainFrom d.heap d.tail d.heap.length

/-- Name lookup over the local chain (dictionary.rs lookup walks tail via
link; the most recent binding wins). -/
def find_word (d : Dict) (name : List Nat) : Option (Nat × Entry) :=
  (reachableEntries d).find? (fun p => p.2.name = name)

/-- dictionary.rs, Dictionary::build_entry: reserve the header slot in the
arena. The tail is untouched and nothing is written to the entry heap; on
bump failure the dictionary is returned unchanged (the cursor only moves
on success). The pair mirrors the &mut self receiver. -/
def build_entry (d : Dict) : Except BumpError EntryBuilder × Dict :=
  match d.alloc.bump DICT_ENTRY_SIZE DICT_ENTRY_ALIGN with
  | .error e => (.error e, d)
  | .ok (base, alloc') =>
    (.ok { base := base, len := 0, kind := .Dictionary }, { d with alloc := alloc' })

/-- dictionary.rs, EntryBuilder::write_word: append one parameter cell via
bump_write, incrementing the builder length. The cell value is written
into the arena (whose raw byte contents this model does not track); only
the arena cursor moves, and the tail and entry heap are untouched. -/
def write_word (b : EntryBuilder) (d : Dict) (word : Nat) :
    Except BumpError EntryBuilder × Dict :=
  match d.alloc.bump WORD_SIZE WORD_ALIGN with
  | .error e => (.error e, d)
  | .ok (_, alloc') =>
    let _ := word
    (.ok { b with len := b.len + 1 }, { d with alloc := alloc' })

/-- A sequence of write_word steps; stops at the first failure, as the ?
operator does in the source, returning the dictionary as mutated so far. -/
def write_words (b : EntryBuilder) (d : Dict) : List Nat → Except BumpError EntryBuilder × Dict
  | [] => (.ok b, d)
  | w :: ws =>
    match write_word b d w with
    | (.error e, d') => (.error e, d')
    | (.ok b', d') => write_words b' d' ws

/-- dictionary.rs, EntryBuilder::finish: write the header with name, kind,
length and code-field pointer at base, link it to the previous tail
(the source comments: do not link until we know we have a good entry),
and only then move the tail to the new entry. -/
def finish (b : EntryBuilder) (name : List Nat) (func : Nat) (d : Dict) : Dict :=
  { d with
    heap := (b.base,
      { name := name, kind := b.kind, len := b.len, func := func, link := d.tail }) :: d.heap,
    tail := some b.base }

/-- dictionary.rs, Dictionary::add_bi_fastr: allocate and initialize a
RuntimeBuiltin entry in one step, linking it to the previous tail. -/
def add_bi_fastr (d : Dict) (name : List Nat) (bi : Nat) : Except BumpError Unit × Dict :=
  match d.alloc.bump DICT_ENTRY_SIZE DICT_ENTRY_ALIGN with
  | .error e => (.error e, d)
  | .ok (base, alloc') =>
    (.ok (), { alloc := alloc',
               heap := (base,
                 { name := name, kind := .RuntimeBuiltin, len := 0, func := bi,
                   link := d.tail }) :: d.heap,
               tail := some base })

/-- Modelled from the spec: Forth::add_builtin (vm/mod.rs is not among the
provided sources). Spec section 6: installing a named native word at
runtime consumes arena space for the name and the entry; the name is
stored with bump_str and the entry is created with add_bi_fastr. -/
def add_builtin (d : Dict) (rawName : List Nat) (bi : Nat) :
    Except BumpError Unit × Dict :=
  match d.alloc.bump_str rawName with
  | .error e => (.error e, d)
  | .ok (name, alloc') => add_bi_fastr { d with alloc := alloc' } name bi

/-- Modelled from the spec: the colon-definition path of the compiler
(vm/mod.rs is not among the provided sources). Spec section 4.4: a colon
definition stores the case-folded name, reserves an entry, appends the
compiled parameter cells one at a time, and links the entry at finish. -/
def define_word (d : Dict) (rawName : List Nat) (ws : List Nat) (func : Nat) :
    Except BumpError Unit × Dict :=
  match d.alloc.bump_str rawName with
  | .error e => (.error e, d)
  | .ok (name, alloc0) =>
    let d0 : Dict := { d with alloc := alloc0 }
    match build_entry d0 with
    | (.error e, d1) => (.error e, d1)
    | (.ok b, d1) =>
      match write_words b d1 ws with
      | (.error e, d2) => (.error e, d2)
      | (.ok b', d2) => (.ok (), finish b' name func d2)

end Dict

/-- A well-formed stored entry name: at most 31 bytes, every byte ASCII,
and no byte an uppercase ASCII letter (names are case-folded). -/
def validName (n : List Nat) : Prop :=
  n.length ≤ 31 ∧ ∀ byte ∈ n, byte ≤ 127 ∧ ¬ (65 ≤ byte ∧ byte ≤ 90)

instance (n : List Nat) : Decidable (validName n) := by
  unfold validName; infer_instance

namespace SharedDict

/-- dictionary.rs, Dictionary::MUTABLE: the sentinel refcount usize::MAX
meaning the dictionary is uniquely owned and mutable. -/
def MUTABLE : Nat := USIZE_WRAP - 1

/-- dictionary.rs, SharedDict::MAX_REFCOUNT = MUTABLE - 1. -/
def MAX_REFCOUNT : Nat := MUTABLE - 1

/-- dictionary.rs, SharedDict::drop: fetch_sub(1, Release) returns the old
count; the early return is taken unless the old count was 1, in which case
drop_slow invokes DropDict::drop_dict. Returns the new count (wrapping, as
fetch_sub does) and whether drop_dict was invoked. -/
def drop (refs : Nat) : Nat × Bool :=
  ((refs + (USIZE_WRAP - 1)) % USIZE_WRAP, refs == 1)

/-- dictionary.rs, SharedDict::clone: fetch_add(1, Relaxed); the program
aborts (unreachable) when the old count was MAX_REFCOUNT, so the result is
none in that case. -/
def clone (refs : Nat) : Option Nat :=
  if refs = MAX_REFCOUNT then none else some ((refs + 1) % USIZE_WRAP)

/-- dictionary.rs, OwnedDict::into_shared: compare_exchange the refcount
from MUTABLE to 1; any other prior value is a panic (expect), modelled as
none. -/
def into_shared (refs : Nat) : Option Nat :=
  if refs = MUTABLE then some 1 else none

end SharedDict

/-- Stack failures (spec section 7; stack.rs is not among the provided
sources, so the split into variants follows the spec). -/
inductive StackErr where
  | StackEmpty
  | StackOverflow
  | StackUnderflow
  deriving DecidableEq, Repr

/-- The single VM error type (spec section 7 lists the kinds; the Rust
definition lives in a file not among the provided sources). -/
inductive Error where
  | Stack (e : StackErr)
  | DictionaryFull
  | BadName
  | UnknownWord
  | BadLiteral
  | NumberOverflow
  | CompileOnlyWord
  | InterpretOnlyWord
  | UnbalancedControlFlow
  | OutputFull
  | PendingCallAgain
  deriving DecidableEq, Repr

/-- Modelled from the spec: the name validation performed when a word is
defined (the defining code in vm/mod.rs is not among the provided
sources). Spec section 7: BadName (non-ASCII, empty, or more than 31
bytes). -/
def check_name (s : List Nat) : Except Error Unit :=
  if s = [] ∨ 31 < s.length ∨ ¬ s.all DictionaryBump.is_ascii then
    .error .BadName
  else
    .ok ()

/-- An inner-interpreter call-stack frame as async_pig reads it: the kind
tag and the name of the entry the frame points at (vm/async_vm.rs reads
top.eh.kind, the func pointer behind the header, and top.eh.name). -/
structure Frame where
  kind : EntryKind
  name : List Nat
  deriving DecidableEq, Repr

/-- The VM state visible to the async line-processing code: the three
stacks and the output buffer (a bounded byte sink with its capacity).
Data and return cells are machine words, modelled as integers. -/
structure VM where
  data_stack : List Int
  return_stack : List Int
  call_stack : List Frame
  out : List Nat
  out_cap : Nat
  deriving DecidableEq, Repr

/-- vm/async_vm.rs, Step: whether the inner interpreter has finished. -/
inductive Step where
  | Done
  | NotDone
  deriving DecidableEq, Repr

/-- vm/mod.rs ProcessAction (file not among the provided sources; spec
section 4.8 gives the three states of the process_line state machine). -/
inductive ProcessAction where
  | Done
  | Continue
  | Execute
  deriving DecidableEq, Repr

/-- The native handlers behind the entries on the call stack: the function
pointer dereferenced for Static/RuntimeBuiltin entries, the one for
Dictionary entries, and the async dispatcher keyed by entry name
(vm/async_vm.rs async_pig). Each receives the exclusively borrowed VM and
returns its result together with the mutated VM. -/
structure Handlers where
  builtin_func : Frame → VM → Except Error Unit × VM
  dict_func : Frame → VM → Except Error Unit × VM
  dispatch_async : List Nat → VM → Except Error Unit × VM

/-- The kind dispatch in vm/async_vm.rs async_pig: StaticBuiltin and
RuntimeBuiltin invoke the BuiltinEntry func, Dictionary the
DictionaryEntry func, AsyncBuiltin awaits the dispatcher future for the
entry name. -/
def dispatch_top (h : Handlers) (top : Frame) (vm : VM) : Except Error Unit × VM :=
  match top.kind with
  | .StaticBuiltin => h.builtin_func top vm
  | .RuntimeBuiltin => h.builtin_func top vm
  | .Dictionary => h.dict_func top vm
  | .AsyncBuiltin => h.dispatch_async top.name vm

/-- vm/async_vm.rs, AsyncForth::async_pig: peek the call stack (StackEmpty
means execution is Done); dispatch on the top entry kind; on Ok pop the
top frame (the pop result is discarded), on PendingCallAgain pop nothing
and report NotDone, on any other error propagate it. -/
def async_pig (h : Handlers) (vm : VM) : Except Error Step × VM :=
  match vm.call_stack with
  | [] => (.ok .Done, vm)
  | top :: _ =>
    match dispatch_top h top vm with
    | (.ok _, vm') => (.ok .NotDone, { vm' with call_stack := vm'.call_stack.tail })
    | (.error .PendingCallAgain, vm') => (.ok .NotDone, vm')
    | (.error e, vm') => (.error e, vm')

/-- The bytes of the success prompt "ok.\n" appended by process_line. -/
def OK_PROMPT : List Nat := [111, 107, 46, 10]

/-- Modelled from the spec: OutputBuf::push_str (output buffer code not
among the provided sources). Spec section 3: a bounded text sink with
capacity checks; spec section 7: OutputFull when the writer buffer is
exceeded. -/
def push_bytes (vm : VM) (s : List Nat) : Except Error VM :=
  if vm.out.length + s.length ≤ vm.out_cap then
    .ok { vm with out := vm.out ++ s }
  else
    .error .OutputFull

/-- The inner while loop of vm/async_vm.rs process_line: run async_pig
until it reports Done. Fuel bounds the iteration count; none means the
fuel ran out before the loop finished. -/
def run_pig_loop (h : Handlers) : Nat → VM → Option (Except Error Unit × VM)
  | 0, _ => none
  | fuel + 1, vm =>
    match async_pig h vm with
    | (.ok .Done, vm') => some (.ok (), vm')
    | (.ok .NotDone, vm') => run_pig_loop h fuel vm'
    | (.error e, vm') => some (.error e, vm')

/-- The loop body of vm/async_vm.rs process_line: step the line processor
(spl models Forth::start_processing_line, whose source file is not
provided); on Done push the ok prompt and stop, on Continue loop, on
Execute run the inner interpreter to completion and loop. Errors escape
the loop with the VM as mutated so far. -/
def process_line_loop (spl : VM → Except Error ProcessAction × VM) (h : Handlers) :
    Nat → VM → Option (Except Error Unit × VM)
  | 0, _ => none
  | fuel + 1, vm =>
    match spl vm with
    | (.error e, vm') => some (.error e, vm')
    | (.ok .Done, vm') =>
      match push_bytes vm' OK_PROMPT with
      | .ok vm'' => some (.ok (), vm'')
      | .error e => some (.error e, vm')
    | (.ok .Continue, vm') => process_line_loop spl h fuel vm'
    | (.ok .Execute, vm') =>
      match run_pig_loop h fuel vm' with
      | none => none
      | some (.ok _, vm'') => process_line_loop spl h fuel vm''
      | some (.error e, vm'') => some (.error e, vm'')

/-- vm/async_vm.rs, AsyncForth::process_line: run the loop; on success
return Ok with the VM as is, on failure clear the data, return and call
stacks before surfacing the error. -/
def process_line (spl : VM → Except Error ProcessAction × VM) (h : Handlers)
    (fuel : Nat) (vm : VM) : Option (Except Error Unit × VM) :=
  match process_line_loop spl h fuel vm with
  | none => none
  | some (.ok u, vm') => some (.ok u, vm')
  | some (.error e, vm') =>
    some (.error e, { vm' with data_stack := [], return_stack := [], call_stack := [] })

/-- The spec-modelled balance contract of the inner interpreter (spec
section 8, invariant 1, and section 4.5): whenever a handler leaves at
most one frame on the call stack - so that the step about to complete is
a top-level one - it has consumed everything it put on the return stack. -/
def balanced (h : Handlers) : Prop :=
  ∀ top vm, (dispatch_top h top vm).2.call_stack.length ≤ 1 →
    (dispatch_top h top vm).2.return_stack = []

/-- The spec-modelled contract of Forth::start_processing_line (spec
section 4.8): starting from empty call and return stacks, a step leaves
the return stack empty, and only an Execute step (which pushes the frames
the inner interpreter will run) may leave frames on the call stack. -/
def spl_contract (spl : VM → Except Error ProcessAction × VM) : Prop :=
  ∀ vm a vm', spl vm = (.ok a, vm') →
    vm.call_stack = [] → vm.return_stack = [] →
    vm'.return_stack = [] ∧ (a ≠ ProcessAction.Execute → vm'.call_stack = [])

/-- Modelled from the spec: the data stack (stack.rs is not among the
provided sources). Spec section 3: a fixed-capacity LIFO over a caller
buffer; overflow and underflow are explicit failures. Cells hold machine
words, modelled as integers. -/
structure FStack where
  cap : Nat
  items : List Int
  deriving DecidableEq, Repr

namespace FStack

/-- Modelled from the spec: Stack::try_pop fails with StackUnderflow on an
empty stack (spec section 7), otherwise removes and returns the top. -/
def try_pop (s : FStack) : Except Error (Int × FStack) :=
  match s.items with
  | [] => .error (.Stack .StackUnderflow)
  | x :: xs => .ok (x, { s with items := xs })

/-- Modelled from the spec: Stack::push fails with StackOverflow on a full
stack (spec section 7), otherwise prepends the value. -/
def push (s : FStack) (w : Int) : Except Error FStack :=
  if s.cap ≤ s.items.length then
    .error (.Stack .StackOverflow)
  else
    .ok { s with items := w :: s.items }

end FStack

/-- The two-complement wrap of an integer into the 64-bit signed range. -/
def wrap64 (x : Int) : Int := (x + 2 ^ 63) % 2 ^ 64 - 2 ^ 63

/-- The shift amount Rust uses for a 64-bit shift: the low six bits of the
two-complement pattern of the right operand. -/
def shift_amount (a : Int) : Nat := (Int.land a 63).toNat

/-- Arithmetic (sign-propagating) right shift, as Rust performs on isize:
floor division by a power of two. -/
def ashr (b : Int) (n : Nat) : Int := Int.fdiv b (2 ^ n)

/-- vm/builtins/bitops.rs, Forth::bitand: pop a, pop b, push a & b. The
&mut self receiver only touches the data stack, so the operation is
modelled on it; each partial state is returned on failure, as the ?
operator leaves it. -/
def bitand (s : FStack) : Except Error Unit × FStack :=
  match s.try_pop with
  | .error e => (.error e, s)
  | .ok (a, s1) =>
    match s1.try_pop with
    | .error e => (.error e, s1)
    | .ok (b, s2) =>
      match s2.push (Int.land a b) with
      | .error e => (.error e, s2)
      | .ok s3 => (.ok (), s3)

/-- vm/builtins/bitops.rs, Forth::bitor: pop a, pop b, push a | b. -/
def bitor (s : FStack) : Except Error Unit × FStack :=
  match s.try_pop with
  | .error e => (.error e, s)
  | .ok (a, s1) =>
    match s1.try_pop with
    | .error e => (.error e, s1)
    | .ok (b, s2) =>
      match s2.push (Int.lor a b) with
      | .error e => (.error e, s2)
      | .ok s3 => (.ok (), s3)

/-- vm/builtins/bitops.rs, Forth::bitxor: pop a, pop b, push a ^ b. -/
def bitxor (s : FStack) : Except Error Unit × FStack :=
  match s.try_pop with
  | .error e => (.error e, s)
  | .ok (a, s1) =>
    match s1.try_pop with
    | .error e => (.error e, s1)
    | .ok (b, s2) =>
      match s2.push (Int.xor a b) with
      | .error e => (.error e, s2)
      | .ok s3 => (.ok (), s3)

/-- vm/builtins/bitops.rs, Forth::bitshl: pop a, pop b, push b << a, with
the release-mode Rust semantics of a 64-bit shift (amount masked to six
bits, result wrapped). -/
def bitshl (s : FStack) : Except Error Unit × FStack :=
  match s.try_pop with
  | .error e => (.error e, s)
  | .ok (a, s1) =>
    match s1.try_pop with
    | .error e => (.error e, s1)
    | .ok (b, s2) =>
      match s2.push (wrap64 (b * 2 ^ shift_amount a)) with
      | .error e => (.error e, s2)
      | .ok s3 => (.ok (), s3)

/-- vm/builtins/bitops.rs, Forth::bitshr: pop a, pop b, push b >> a
(arithmetic shift on isize, amount masked to six bits). -/
def bitshr (s : FStack) : Except Error Unit × FStack :=
  match s.try_pop with
  | .error e => (.error e, s)
  | .ok (a, s1) =>
    match s1.try_pop with
    | .error e => (.error e, s1)
    | .ok (b, s2) =>
      match s2.push (ashr b (shift_amount a)) with
      | .error e => (.error e, s2)
      | .ok s3 => (.ok (), s3)

/-- disk.rs, PageState: the state of one cache slot. -/
inductive PageState where
  | Empty
  | Buffer (i : Nat)
  | Clean (i : Nat)
  | Dirty (i : Nat)
  deriving DecidableEq, Repr

/-- disk.rs, Cache: one page-sized buffer (its address, opaque here) and
its state. -/
structure Cache where
  buf : Nat
  page : PageState
  deriving DecidableEq, Repr

/-- disk.rs, Cache::is_page: does this slot hold page idx in any non-Empty
state? -/
def Cache.is_page (c : Cache) (idx : Nat) : Bool :=
  match c.page with
  | .Empty => false
  | .Buffer i => i == idx
  | .Clean i => i == idx
  | .Dirty i => i == idx

/-- disk.rs, Disk: the two cache slots (c0 is active / most recently used,
c1 is oldest) and the page size. The driver is modelled as a log of the
calls issued to it, recorded by each operation. -/
structure Disk where
  c0 : Cache
  c1 : Cache
  size : Nat
  deriving DecidableEq, Repr

/-- A call to the block driver (disk.rs, DiskDriver::read / write). -/
inductive DiskAction where
  | ReadFrom (idx : Nat) (dest : Nat) (len : Nat)
  | WriteTo (idx : Nat) (src : Nat) (len : Nat)
  deriving DecidableEq, Repr

namespace Disk

/-- disk.rs, Disk::make_space_for_idx: if the active slot already holds
idx, nothing to do and no read needed. Otherwise swap the slots (the
target, or the slot to load into, becomes active); if the now-active slot
holds idx, no read needed. Otherwise evict it, writing its contents back
to the driver iff its state is Dirty; a read is needed. Returns whether a
read is needed, the new state, and the driver calls issued. -/
def make_space_for_idx (d : Disk) (idx : Nat) : Bool × Disk × List DiskAction :=
  if d.c0.is_page idx then
    (false, d, [])
  else
    let ds : Disk := { d with c0 := d.c1, c1 := d.c0 }
    if ds.c0.is_page idx then
      (false, ds, [])
    else
      match ds.c0.page with
      | .Dirty i => (true, ds, [.WriteTo i ds.c0.buf d.size])
      | _ => (true, ds, [])

/-- disk.rs, Disk::block: make space for idx; when a read is needed, read
the page from the driver into the active slot and mark it Clean(idx).
Returns the active buffer pointer, the new state, and the driver calls. -/
def block (d : Disk) (idx : Nat) : Nat × Disk × List DiskAction :=
  match make_space_for_idx d idx with
  | (true, ds, log) =>
    (ds.c0.buf, { ds with c0 := { ds.c0 with page := .Clean idx } },
      log ++ [.ReadFrom idx ds.c0.buf d.size])
  | (false, ds, log) => (ds.c0.buf, ds, log)

/-- disk.rs, Disk::buffer: make space for idx; when a read would have been
needed, skip it and mark the active slot Buffer(idx); otherwise keep the
slot state as it was. -/
def buffer (d : Disk) (idx : Nat) : Nat × Disk × List DiskAction :=
  match make_space_for_idx d idx with
  | (true, ds, log) =>
    (ds.c0.buf, { ds with c0 := { ds.c0 with page := .Buffer idx } }, log)
  | (false, ds, log) => (ds.c0.buf, ds, log)

/-- disk.rs, Disk::mark_dirty: on the active slot only, Buffer(i),
Clean(i) and Dirty(i) become Dirty(i); Empty silently stays Empty (the
source comments this is maybe an error) and nothing fails. -/
def mark_dirty (d : Disk) : Disk :=
  let next := match d.c0.page with
    | .Empty => PageState.Empty
    | .Buffer i => PageState.Dirty i
    | .Clean i => PageState.Dirty i
    | .Dirty i => PageState.Dirty i
  { d with c0 := { d.c0 with page := next } }

/-- disk.rs, Disk::flush: write back each Dirty slot and set both slots
Empty. -/
def flush (d : Disk) : Disk × List DiskAction :=
  let log0 : List DiskAction := match d.c0.page with
    | .Dirty i => [.WriteTo i d.c0.buf d.size]
    | _ => []
  let log1 : List DiskAction := match d.c1.page with
    | .Dirty i => [.WriteTo i d.c1.buf d.size]
    | _ => []
  ({ d with c0 := { d.c0 with page := .Empty }, c1 := { d.c1 with page := .Empty } },
    log0 ++ log1)

/-- disk.rs, Disk::empty_buffers: set both slots Empty, discarding any
modified contents. -/
def empty_buffers (d : Disk) : Disk :=
  { d with c0 := { d.c0 with page := .Empty }, c1 := { d.c1 with page := .Empty } }

end Disk

/-!  Theorems. -/

/-- C7: the bump cursor is claimed monotonic non-decreasing across every
arena operation, success or failure, for any requested size. The code
computes the requested cursor with a wrapping add and only compares it
against the arena end, so a request of 2^64 - 1 bytes on a cursor at 4096
wraps around, passes the bounds check, moves the cursor backward to 4095
and even reports success. -/
theorem c7_bump_u8s_wrapping_moves_cursor_backward :
    DictionaryBump.bump_u8s ⟨0, 4096, 8192⟩ (2 ^ 64 - 1) =
      some (4096, ⟨0, 4095, 8192⟩) ∧
    (4095 : Nat) < 4096 := by
  constructor
  · decide
  · decide

/-- C9: mark_dirty acts only on the active slot, mapping Buffer(i),
Clean(i) and Dirty(i) to Dirty(i) while an Empty active slot silently
stays Empty; the inactive slot, the buffers and the size are untouched,
and the operation is total, so no error is raised. -/
theorem c9_mark_dirty_active_slot_only (d : Disk) :
    (Disk.mark_dirty d).c1 = d.c1 ∧
    (Disk.mark_dirty d).size = d.size ∧
    (Disk.mark_dirty d).c0.buf = d.c0.buf ∧
    (Disk.mark_dirty d).c0.page =
      (match d.c0.page with
       | .Empty => PageState.Empty
       | .Buffer i => PageState.Dirty i
       | .Clean i => PageState.Dirty i
       | .Dirty i => PageState.Dirty i) := by
  obtain ⟨⟨b0, p0⟩, c1, sz⟩ := d
  cases p0 <;> simp [Disk.mark_dirty]

/-- C10: on a data stack of depth exactly one, each of the five binary bit
operations pops the single operand, then fails with StackUnderflow on the
second pop, leaving the data stack empty rather than unchanged. -/
theorem c10_bitops_underflow_consumes_operand (x : Int) (cap : Nat) :
    bitand ⟨cap, [x]⟩ = (.error (.Stack .StackUnderflow), ⟨cap, []⟩) ∧
    bitor ⟨cap, [x]⟩ = (.error (.Stack .StackUnderflow), ⟨cap, []⟩) ∧
    bitxor ⟨cap, [x]⟩ = (.error (.Stack .StackUnderflow), ⟨cap, []⟩) ∧
    bitshl ⟨cap, [x]⟩ = (.error (.Stack .StackUnderflow), ⟨cap, []⟩) ∧
    bitshr ⟨cap, [x]⟩ = (.error (.Stack .StackUnderflow), ⟨cap, []⟩) :=
  ⟨rfl, rfl, rfl, rfl, rfl⟩

/-- C3: dropping a SharedDict handle decrements the reference count by
one; the deallocation hook drop_dict is invoked iff the count before the
drop was 1, so it is never invoked while another reference remains; a
freshly shared dictionary starts at refcount 1. -/
theorem c3_shared_drop_refcount (r : Nat) (h1 : 1 ≤ r)
    (h2 : r ≤ SharedDict.MAX_REFCOUNT) :
    (SharedDict.drop r).1 = r - 1 ∧
    ((SharedDict.drop r).2 = true ↔ r = 1) ∧
    (2 ≤ r → (SharedDict.drop r).2 = false) ∧
    SharedDict.into_shared SharedDict.MUTABLE = some 1 := by
  have h2' : r ≤ 2 ^ 64 - 2 := by
    simpa [SharedDict.MAX_REFCOUNT, SharedDict.MUTABLE, USIZE_WRAP] using h2
  refine ⟨?_, ?_, ?_, ?_⟩
  · show (r + (USIZE_WRAP - 1)) % USIZE_WRAP = r - 1
    simp only [USIZE_WRAP]
    omega
  · simp [SharedDict.drop]
  · intro hge
    have hne : r ≠ 1 := by omega
    simp [SharedDict.drop, hne]
  · simp [SharedDict.into_shared]

/-- Witness for C3 at a refcount of exactly 1: the drop reaches 0 and the
hook fires. -/
theorem c3_shared_drop_refcount_witness :
    (SharedDict.drop 1).1 = 1 - 1 ∧
    ((SharedDict.drop 1).2 = true ↔ 1 = 1) ∧
    (2 ≤ 1 → (SharedDict.drop 1).2 = false) ∧
    SharedDict.into_shared SharedDict.MUTABLE = some 1 :=
  c3_shared_drop_refcount 1 (by decide) (by decide)

/-- C5, counterexample to the first half as stated: bump_str only inspects
the first 31 bytes, so a 33-byte input whose non-ASCII bytes sit past that
prefix succeeds (truncated to 31 bytes) instead of failing. -/
theorem c5_counterexample :
    DictionaryBump.bump_str ⟨0, 0, 256⟩ (List.replicate 31 97 ++ [195, 169]) =
      .ok (List.replicate 31 97, ⟨0, 31, 256⟩) ∧
    (195 : Nat) ∈ List.replicate 31 97 ++ [195, 169] ∧
    DictionaryBump.is_ascii 195 = false := by
  refine ⟨rfl, by decide, by decide⟩

/-- Reserving the header slot changes neither the tail nor the written
entries, whether the bump succeeds or fails. -/
theorem build_entry_preserves_chain (d : Dict) :
    (Dict.build_entry d).2.tail = d.tail ∧ (Dict.build_entry d).2.heap = d.heap := by
  unfold Dict.build_entry
  rcases hb : d.alloc.bump DICT_ENTRY_SIZE DICT_ENTRY_ALIGN with e | ⟨base, a'⟩ <;>
    simp [hb]

/-- Appending parameter cells changes neither the tail nor the written
entries, whether the writes succeed or fail part-way. -/
theorem write_words_preserves_chain (ws : List Nat) :
    ∀ (b : EntryBuilder) (d : Dict),
      (Dict.write_words b d ws).2.tail = d.tail ∧
      (Dict.write_words b d ws).2.heap = d.heap := by
  induction ws with
  | nil => intro b d; exact ⟨rfl, rfl⟩
  | cons w ws ih =>
    intro b d
    unfold Dict.write_words Dict.write_word
    rcases hb : d.alloc.bump WORD_SIZE WORD_ALIGN with e | ⟨ptr, a'⟩
    · simp [hb]
    · simpa [hb] using ih _ { d with alloc := a' }

/-- Name lookup depends only on the tail and the written entries. -/
theorem find_word_eq_of_chain_eq {d1 d2 : Dict} (ht : d1.tail = d2.tail)
    (hh : d1.heap = d2.heap) (name : List Nat) :
    d1.find_word name = d2.find_word name := by
  unfold Dict.find_word Dict.reachableEntries
  rw [ht, hh]

/-- C2: an entry becomes reachable from the tail only at the finish step.
Reserving the header and appending parameter cells leave the tail and the
entry heap - hence every name lookup - exactly as they were, whether those
steps succeed or fail (so an abandoned or out-of-memory construction
leaves no findable partial word); finish moves the tail to the new entry,
whose link field is the previous tail. -/
theorem c2_entry_linked_only_at_finish (d : Dict) (b : EntryBuilder)
    (ws name : List Nat) (func : Nat) :
    ((Dict.build_entry d).2.tail = d.tail ∧ (Dict.build_entry d).2.heap = d.heap) ∧
    ((Dict.write_words b d ws).2.tail = d.tail ∧
      (Dict.write_words b d ws).2.heap = d.heap) ∧
    (Dict.find_word (Dict.write_words b (Dict.build_entry d).2 ws).2 name =
      Dict.find_word d name) ∧
    ((Dict.finish b name func d).tail = some b.base ∧
      Dict.heapFind (Dict.finish b name func d).heap b.base =
        some { name := name, kind := b.kind, len := b.len, func := func,
               link := d.tail }) := by
  obtain ⟨hbt, hbh⟩ := build_entry_preserves_chain d
  obtain ⟨hwt, hwh⟩ := write_words_preserves_chain ws b (Dict.build_entry d).2
  refine ⟨⟨hbt, hbh⟩, write_words_preserves_chain ws b d, ?_, ?_, ?_⟩
  · exact find_word_eq_of_chain_eq (hwt.trans hbt) (hwh.trans hbh) name
  · rfl
  · simp [Dict.finish, Dict.heapFind]

/-- Any name bump_str stores is at most 31 bytes of case-folded ASCII. -/
theorem bump_str_validName {b b' : DictionaryBump} {s name : List Nat}
    (h : DictionaryBump.bump_str b s = .ok (name, b')) : validName name := by
  unfold DictionaryBump.bump_str at h
  by_cases hall : (s.take (min s.length 31)).all DictionaryBump.is_ascii
  · rw [if_neg (by simpa using hall)] at h
    rcases hbu : b.bump_u8s (min s.length 31) with _ | ⟨ptr, b2⟩ <;> rw [hbu] at h
    · cases h
    · obtain ⟨rfl, rfl⟩ : (s.take (min s.length 31)).map DictionaryBump.to_ascii_lowercase
          = name ∧ b2 = b' := by
        cases h; exact ⟨rfl, rfl⟩
      constructor
      · simp [List.length_take]
      · intro byte hmem
        obtain ⟨c, hc, rfl⟩ := List.mem_map.mp hmem
        have hasc : c ≤ 127 := by
          have := List.all_eq_true.mp hall c hc
          simpa [DictionaryBump.is_ascii] using this
        unfold DictionaryBump.to_ascii_lowercase
        split
        · omega
        · omega
  · rw [if_pos (by simpa using hall)] at h
    cases h

/-- An address lookup only ever returns an entry stored in the heap. -/
theorem heapFind_mem {heap : List (Nat × Entry)} {a : Nat} {e : Entry}
    (h : Dict.heapFind heap a = some e) : (a, e) ∈ heap := by
  induction heap with
  | nil => simp [Dict.heapFind] at h
  | cons p rest ih =>
    obtain ⟨a', e'⟩ := p
    unfold Dict.heapFind at h
    split at h
    · next heq =>
      cases h
      simp [heq]
    · exact List.mem_cons_of_mem _ (ih h)

/-- Every entry on the chain walked from a link is a stored entry. -/
theorem chainFrom_subset {heap : List (Nat × Entry)} :
    ∀ (fuel : Nat) (start : Option Nat) (p : Nat × Entry),
      p ∈ Dict.chainFrom heap start fuel → p ∈ heap := by
  intro fuel
  induction fuel with
  | zero =>
    intro start p hp
    cases start <;> simp [Dict.chainFrom] at hp
  | succ n ih =>
    intro start p hp
    cases start with
    | none => simp [Dict.chainFrom] at hp
    | some a =>
      unfold Dict.chainFrom at hp
      rcases hf : Dict.heapFind heap a with _ | e <;> rw [hf] at hp
      · simp at hp
      · rcases List.mem_cons.mp hp with rfl | hmem
        · exact heapFind_mem hf
        · exact ih _ _ hmem

/-- add_builtin preserves well-formedness of every stored name: the new
name comes from bump_str, all other entries are untouched. -/
theorem add_builtin_names (d : Dict) (n : List Nat) (bi : Nat)
    (hinv : ∀ p ∈ d.heap, validName p.2.name) :
    ∀ p ∈ (Dict.add_builtin d n bi).2.heap, validName p.2.name := by
  unfold Dict.add_builtin
  rcases hbs : d.alloc.bump_str n with e | ⟨name', a'⟩
  · simpa using hinv
  · unfold Dict.add_bi_fastr
    rcases hb : a'.bump DICT_ENTRY_SIZE DICT_ENTRY_ALIGN with e | ⟨base, a''⟩
    · simpa [hb] using hinv
    · simp only [hb]
      intro p hp
      rcases List.mem_cons.mp hp with rfl | hmem
      · exact bump_str_validName hbs
      · exact hinv p hmem

/-- The colon-definition path preserves well-formedness of every stored
name: the new name comes from bump_str, all other entries are untouched,
and failed or abandoned constructions store nothing. -/
theorem define_word_names (d : Dict) (n ws : List Nat) (func : Nat)
    (hinv : ∀ p ∈ d.heap, validName p.2.name) :
    ∀ p ∈ (Dict.define_word d n ws func).2.heap, validName p.2.name := by
  unfold Dict.define_word
  rcases hbs : d.alloc.bump_str n with e | ⟨name', a'⟩
  · simpa using hinv
  · simp only []
    rcases hbe : Dict.build_entry { d with alloc := a' } with ⟨rbe, d1⟩
    have hd1 : d1.heap = d.heap := by
      have := (build_entry_preserves_chain { d with alloc := a' }).2
      rw [hbe] at this
      exact this
    rcases rbe with e | b
    · simpa [hbe, hd1] using hinv
    · rcases hww : Dict.write_words b d1 ws with ⟨rww, d2⟩
      have hd2 : d2.heap = d.heap := by
        have := (write_words_preserves_chain ws b d1).2
        rw [hww] at this
        rw [this, hd1]
      rcases rww with e | b'
      · simp only [hbe, hww]
        rw [hd2]
        exact hinv
      · simp only [hbe, hww, Dict.finish]
        rw [hd2]
        intro p hp
        rcases List.mem_cons.mp hp with rfl | hmem
        · exact bump_str_validName hbs
        · exact hinv p hmem

/-- C6, counterexample to the claim as literally stated: the byte 43 (the
plus sign) is a legal, accepted name byte - installing a word named "+"
succeeds and the entry is reachable - yet 43 is not an ASCII lowercase
letter. Names are case-folded ASCII, not necessarily lowercase letters. -/
theorem c6_counterexample :
    (Dict.add_builtin ⟨⟨0, 0, 512⟩, none, []⟩ [43] 7).1 = .ok () ∧
    (∃ p ∈ Dict.reachableEntries (Dict.add_builtin ⟨⟨0, 0, 512⟩, none, []⟩ [43] 7).2,
      ∃ byte ∈ p.2.name, ¬ (97 ≤ byte ∧ byte ≤ 122)) := by
  constructor
  · rfl
  · exact ⟨(8, ⟨[43], .RuntimeBuiltin, 0, 7, none⟩), by decide, 43, by decide, by decide⟩

/-- C6, amended: after every operation that creates or names a dictionary
entry (runtime builtin installation and colon definition, both of which
store the name with bump_str), every stored - in particular every
reachable - entry has a name of at most 31 bytes, every byte ASCII and
none an uppercase ASCII letter. -/
theorem c6_names_case_folded (d : Dict) (rawName ws : List Nat) (bi func : Nat)
    (hinv : ∀ p ∈ d.heap, validName p.2.name) :
    (∀ p ∈ (Dict.add_builtin d rawName bi).2.heap, validName p.2.name) ∧
    (∀ p ∈ (Dict.define_word d rawName ws func).2.heap, validName p.2.name) ∧
    (∀ p ∈ Dict.reachableEntries (Dict.add_builtin d rawName bi).2,
      validName p.2.name) ∧
    (∀ p ∈ Dict.reachableEntries (Dict.define_word d rawName ws func).2,
      validName p.2.name) := by
  have h1 := add_builtin_names d rawName bi hinv
  have h2 := define_word_names d rawName ws func hinv
  exact ⟨h1, h2,
    fun p hp => h1 p (chainFrom_subset _ _ p hp),
    fun p hp => h2 p (chainFrom_subset _ _ p hp)⟩

/-- Witness for C6 on the empty dictionary and the one-byte name "a". -/
theorem c6_names_case_folded_witness :
    (∀ p ∈ (Dict.add_builtin ⟨⟨0, 0, 512⟩, none, []⟩ [97] 3).2.heap,
      validName p.2.name) ∧
    (∀ p ∈ (Dict.define_word ⟨⟨0, 0, 512⟩, none, []⟩ [97] [5] 3).2.heap,
      validName p.2.name) ∧
    (∀ p ∈ Dict.reachableEntries (Dict.add_builtin ⟨⟨0, 0, 512⟩, none, []⟩ [97] 3).2,
      validName p.2.name) ∧
    (∀ p ∈ Dict.reachableEntries
        (Dict.define_word ⟨⟨0, 0, 512⟩, none, []⟩ [97] [5] 3).2,
      validName p.2.name) :=
  c6_names_case_folded ⟨⟨0, 0, 512⟩, none, []⟩ [97] [5] 3 3 (by simp)

/-- C5, amended: bump_str fails with CantAllocUtf8 - an error distinct
from OutOfMemory - whenever a byte among the first min(len, 31) bytes of
the input is non-ASCII; and defining a word whose name is empty or longer
than 31 bytes fails with BadName (the defining code is modelled from the
spec, section 7). -/
theorem c5_bump_str_nonascii_and_badname (b : DictionaryBump) (s t : List Nat)
    (hs : (s.take (min s.length 31)).all DictionaryBump.is_ascii = false)
    (ht : t = [] ∨ 31 < t.length) :
    DictionaryBump.bump_str b s = .error .CantAllocUtf8 ∧
    BumpError.CantAllocUtf8 ≠ BumpError.OutOfMemory ∧
    check_name t = .error .BadName := by
  refine ⟨?_, by decide, ?_⟩
  · unfold DictionaryBump.bump_str
    simp [hs]
  · unfold check_name
    rcases ht with h | h <;> simp [h]

/-- Witness for C5 on a concrete two-byte name with a non-ASCII second
byte, and the empty name. -/
theorem c5_bump_str_nonascii_and_badname_witness :
    DictionaryBump.bump_str ⟨0, 0, 64⟩ [50, 200] = .error .CantAllocUtf8 ∧
    BumpError.CantAllocUtf8 ≠ BumpError.OutOfMemory ∧
    check_name [] = .error .BadName :=
  c5_bump_str_nonascii_and_badname ⟨0, 0, 64⟩ [50, 200] [] (by decide) (Or.inl rfl)

/-- C4: with a non-empty call stack, one async_pig step dispatches through
the top entry kind (dispatch_top); if the handler returns success the step
pops exactly the top frame of the post-handler stack and reports NotDone;
if it returns the PendingCallAgain sentinel the step pops nothing, leaves
the state exactly as the handler left it and reports success (the sentinel
is never surfaced); any other error is propagated as is. -/
theorem c4_async_pig_step (h : Handlers) (vm : VM) (top : Frame)
    (rest : List Frame) (hcs : vm.call_stack = top :: rest) :
    (∀ vm', dispatch_top h top vm = (.ok (), vm') →
      async_pig h vm = (.ok .NotDone, { vm' with call_stack := vm'.call_stack.tail })) ∧
    (∀ vm', dispatch_top h top vm = (.error .PendingCallAgain, vm') →
      async_pig h vm = (.ok .NotDone, vm')) ∧
    (∀ e vm', e ≠ Error.PendingCallAgain → dispatch_top h top vm = (.error e, vm') →
      async_pig h vm = (.error e, vm')) := by
  refine ⟨?_, ?_, ?_⟩
  · intro vm' hd
    simp only [async_pig, hcs, hd]
  · intro vm' hd
    simp only [async_pig, hcs, hd]
  · intro e vm' he hd
    cases e
    case PendingCallAgain => exact absurd rfl he
    all_goals simp only [async_pig, hcs, hd]

/-- Witness for C4: a one-frame call stack whose handler succeeds; the
step pops the frame. -/
theorem c4_async_pig_step_witness :
    async_pig
      ⟨fun _ v => (.ok (), v), fun _ v => (.ok (), v), fun _ v => (.ok (), v)⟩
      ⟨[], [], [⟨.StaticBuiltin, []⟩], [], 0⟩ =
      (.ok .NotDone, ⟨[], [], [], [], 0⟩) := by
  have h := (c4_async_pig_step
    ⟨fun _ v => (.ok (), v), fun _ v => (.ok (), v), fun _ v => (.ok (), v)⟩
    ⟨[], [], [⟨.StaticBuiltin, []⟩], [], 0⟩ ⟨.StaticBuiltin, []⟩ [] rfl).1
    ⟨[], [], [⟨.StaticBuiltin, []⟩], [], 0⟩ rfl
  simpa using h

/-- C8: looking up a page already held by some slot makes no driver call
and returns the buffer of that slot (swapping the slot to active when it was
the inactive one); on a miss the least recently used slot (the inactive
one) is evicted, written back iff its state was Dirty, after which block
reads the page and marks the slot Clean(idx) while buffer skips the read
and marks it Buffer(idx). -/
theorem c8_block_cache (d : Disk) (idx : Nat) :
    (d.c0.is_page idx = true →
      Disk.block d idx = (d.c0.buf, d, []) ∧
      Disk.buffer d idx = (d.c0.buf, d, [])) ∧
    (d.c0.is_page idx = false → d.c1.is_page idx = true →
      Disk.block d idx = (d.c1.buf, ⟨d.c1, d.c0, d.size⟩, []) ∧
      Disk.buffer d idx = (d.c1.buf, ⟨d.c1, d.c0, d.size⟩, [])) ∧
    (d.c0.is_page idx = false → d.c1.is_page idx = false →
      Disk.block d idx =
        (d.c1.buf, ⟨⟨d.c1.buf, .Clean idx⟩, d.c0, d.size⟩,
          (match d.c1.page with
           | .Dirty i => [DiskAction.WriteTo i d.c1.buf d.size]
           | _ => []) ++ [DiskAction.ReadFrom idx d.c1.buf d.size]) ∧
      Disk.buffer d idx =
        (d.c1.buf, ⟨⟨d.c1.buf, .Buffer idx⟩, d.c0, d.size⟩,
          (match d.c1.page with
           | .Dirty i => [DiskAction.WriteTo i d.c1.buf d.size]
           | _ => []))) := by
  obtain ⟨⟨b0, p0⟩, ⟨b1, p1⟩, sz⟩ := d
  refine ⟨?_, ?_, ?_⟩
  · intro h0
    constructor <;>
      simp [Disk.block, Disk.buffer, Disk.make_space_for_idx, h0]
  · intro h0 h1
    constructor <;>
      simp [Disk.block, Disk.buffer, Disk.make_space_for_idx, h0, h1]
  · intro h0 h1
    cases p1 <;>
      constructor <;>
        simp_all [Disk.block, Disk.buffer, Disk.make_space_for_idx, Cache.is_page]

/-- Witness for C8: a hit in the active slot makes no driver call. -/
theorem c8_block_cache_witness :
    Disk.block ⟨⟨100, .Clean 5⟩, ⟨200, .Empty⟩, 512⟩ 5 =
      (100, ⟨⟨100, .Clean 5⟩, ⟨200, .Empty⟩, 512⟩, []) ∧
    Disk.buffer ⟨⟨100, .Clean 5⟩, ⟨200, .Empty⟩, 512⟩ 5 =
      (100, ⟨⟨100, .Clean 5⟩, ⟨200, .Empty⟩, 512⟩, []) :=
  (c8_block_cache ⟨⟨100, .Clean 5⟩, ⟨200, .Empty⟩, 512⟩ 5).1 rfl

/-- async_pig reports Done exactly when the call stack is empty, and then
touches nothing. -/
theorem async_pig_done {h : Handlers} {vm vmx : VM}
    (hp : async_pig h vm = (.ok .Done, vmx)) :
    vm.call_stack = [] ∧ vmx = vm := by
  obtain ⟨ds, rs, cs, o, oc⟩ := vm
  cases cs with
  | nil =>
    simp only [async_pig] at hp
    cases hp
    exact ⟨rfl, rfl⟩
  | cons top rest =>
    simp only [async_pig] at hp
    rcases hd : dispatch_top h top ⟨ds, rs, top :: rest, o, oc⟩ with ⟨r, vmy⟩
    rw [hd] at hp
    rcases r with e | u
    · cases e <;> cases hp
    · cases hp

/-- One NotDone step preserves the invariant that an empty call stack
comes with an empty return stack, provided the handlers satisfy the
balance contract. -/
theorem async_pig_notdone_inv {h : Handlers} (hbal : balanced h) {vm vmx : VM}
    (hp : async_pig h vm = (.ok .NotDone, vmx)) :
    vmx.call_stack = [] → vmx.return_stack = [] := by
  obtain ⟨ds, rs, cs, o, oc⟩ := vm
  cases cs with
  | nil =>
    simp only [async_pig] at hp
    cases hp
  | cons top rest =>
    simp only [async_pig] at hp
    rcases hd : dispatch_top h top ⟨ds, rs, top :: rest, o, oc⟩ with ⟨r, vmy⟩
    rw [hd] at hp
    have hbal' := hbal top ⟨ds, rs, top :: rest, o, oc⟩
    rw [hd] at hbal'
    rcases r with e | u
    · cases e <;> cases hp
      intro hc
      exact hbal' (by simp [hc])
    · cases hp
      intro hc
      have hc' : vmy.call_stack.tail = [] := hc
      have hlen : vmy.call_stack.length ≤ 1 := by
        cases hcy : vmy.call_stack with
        | nil => simp [hcy]
        | cons a l =>
          rw [hcy] at hc'
          simp at hc'
          simp [hcy, hc']
      exact hbal' hlen

/-- Running the inner-interpreter loop to completion from a state whose
empty call stack would imply an empty return stack ends with both the
call and return stacks empty. -/
theorem run_pig_loop_ok {h : Handlers} (hbal : balanced h) :
    ∀ (fuel : Nat) (vm : VM), (vm.call_stack = [] → vm.return_stack = []) →
      ∀ vm', run_pig_loop h fuel vm = some (.ok (), vm') →
        vm'.call_stack = [] ∧ vm'.return_stack = [] := by
  intro fuel
  induction fuel with
  | zero => intro vm hinv vm' hr; cases hr
  | succ n ih =>
    intro vm hinv vm' hr
    unfold run_pig_loop at hr
    rcases hp : async_pig h vm with ⟨r, vmx⟩
    rw [hp] at hr
    rcases r with e | s
    · simp at hr
    · cases s with
      | Done =>
        cases hr
        obtain ⟨hc, rfl⟩ := async_pig_done hp
        exact ⟨hc, hinv hc⟩
      | NotDone =>
        exact ih vmx (async_pig_notdone_inv hbal hp) vm' hr

/-- A successful push to the output buffer leaves all three stacks as they
were. -/
theorem push_bytes_stacks {vm vm2 : VM} {s : List Nat}
    (h : push_bytes vm s = .ok vm2) :
    vm2.call_stack = vm.call_stack ∧ vm2.return_stack = vm.return_stack ∧
      vm2.data_stack = vm.data_stack := by
  unfold push_bytes at h
  split at h
  · cases h; exact ⟨rfl, rfl, rfl⟩
  · cases h

/-- The process_line loop, entered with empty call and return stacks,
keeps them empty whenever it stops successfully. -/
theorem process_line_loop_ok (spl : VM → Except Error ProcessAction × VM)
    (h : Handlers) (hbal : balanced h) (hspl : spl_contract spl) :
    ∀ (fuel : Nat) (vm : VM), vm.call_stack = [] → vm.return_stack = [] →
      ∀ vm', process_line_loop spl h fuel vm = some (.ok (), vm') →
        vm'.call_stack = [] ∧ vm'.return_stack = [] := by
  intro fuel
  induction fuel with
  | zero => intro vm hc hr vm' hrun; cases hrun
  | succ n ih =>
    intro vm hc hr vm' hrun
    unfold process_line_loop at hrun
    rcases hs : spl vm with ⟨r0, v1⟩
    rw [hs] at hrun
    rcases r0 with e | a
    · have hrun2 : some (Except.error e, v1) = some (Except.ok (), vm') := hrun
      simp at hrun2
    · cases a with
      | Done =>
        obtain ⟨hret1, hcall1⟩ := hspl vm .Done v1 hs hc hr
        have hcall1' := hcall1 (by decide)
        have hrun2 : (match push_bytes v1 OK_PROMPT with
            | .ok vm'' => some (Except.ok (), vm'')
            | .error e => some (Except.error e, v1)) = some (Except.ok (), vm') := hrun
        rcases hp : push_bytes v1 OK_PROMPT with e2 | v2 <;> rw [hp] at hrun2
        · simp at hrun2
        · cases hrun2
          obtain ⟨hcs, hrs, _⟩ := push_bytes_stacks hp
          exact ⟨hcs.trans hcall1', hrs.trans hret1⟩
      | Continue =>
        obtain ⟨hret1, hcall1⟩ := hspl vm .Continue v1 hs hc hr
        have hrun2 : process_line_loop spl h n v1 = some (Except.ok (), vm') := hrun
        exact ih v1 (hcall1 (by decide)) hret1 vm' hrun2
      | Execute =>
        obtain ⟨hret1, _⟩ := hspl vm .Execute v1 hs hc hr
        have hrun2 : (match run_pig_loop h n v1 with
            | none => none
            | some (Except.ok _, vm'') => process_line_loop spl h n vm''
            | some (Except.error e, vm'') => some (Except.error e, vm'')) =
            some (Except.ok (), vm') := hrun
        rcases hrp : run_pig_loop h n v1 with _ | ⟨r2, v2⟩ <;> rw [hrp] at hrun2
        · cases hrun2
        · rcases r2 with e2 | u
          · simp at hrun2
          · cases u
            obtain ⟨hc2, hr2⟩ := run_pig_loop_ok hbal n v1 (fun _ => hret1) v2 hrp
            exact ih v2 hc2 hr2 vm' hrun2

/-- C1: process_line, entered with empty call and return stacks and with
handlers and a line processor satisfying the balance contracts modelled
from the spec, returns with the call and return stacks empty on success,
and with all three stacks cleared before any error is surfaced. -/
theorem c1_process_line_stack_discipline
    (spl : VM → Except Error ProcessAction × VM) (h : Handlers)
    (fuel : Nat) (vm vm' : VM) (res : Except Error Unit)
    (hbal : balanced h) (hspl : spl_contract spl)
    (hcall : vm.call_stack = []) (hret : vm.return_stack = [])
    (hrun : process_line spl h fuel vm = some (res, vm')) :
    (∀ e, res = .error e →
      vm'.data_stack = [] ∧ vm'.return_stack = [] ∧ vm'.call_stack = []) ∧
    (res = .ok () → vm'.call_stack = [] ∧ vm'.return_stack = []) := by
  unfold process_line at hrun
  rcases hl : process_line_loop spl h fuel vm with _ | ⟨r0, v0⟩ <;> rw [hl] at hrun
  · cases hrun
  · rcases r0 with e0 | u
    · simp only [Option.some.injEq, Prod.mk.injEq] at hrun
      obtain ⟨hres, hvm⟩ := hrun
      subst hres
      subst hvm
      constructor
      · intro e he
        exact ⟨rfl, rfl, rfl⟩
      · intro hok; cases hok
    · cases u
      simp only [Option.some.injEq, Prod.mk.injEq] at hrun
      obtain ⟨hres, hvm⟩ := hrun
      subst hres
      subst hvm
      constructor
      · intro e he; cases he
      · intro _
        exact process_line_loop_ok spl h hbal hspl fuel vm hcall hret v0 hl

/-- Witness for C1: a line processor that immediately reports Done and
balanced handlers, on the empty VM; process_line succeeds with the prompt
pushed and the stacks empty. -/
theorem c1_process_line_stack_discipline_witness :
    balanced ⟨fun _ v => (.ok (), { v with return_stack := [] }),
      fun _ v => (.ok (), { v with return_stack := [] }),
      fun _ v => (.ok (), { v with return_stack := [] })⟩ ∧
    spl_contract (fun v => (.ok .Done, v)) ∧
    ((⟨[], [], [], OK_PROMPT, 10⟩ : VM).call_stack = [] ∧
      (⟨[], [], [], OK_PROMPT, 10⟩ : VM).return_stack = []) := by
  have hbal : balanced ⟨fun _ v => (.ok (), { v with return_stack := [] }),
      fun _ v => (.ok (), { v with return_stack := [] }),
      fun _ v => (.ok (), { v with return_stack := [] })⟩ := by
    intro top vm _
    obtain ⟨k, nm⟩ := top
    cases k <;> rfl
  have hspl : spl_contract (fun v => (.ok .Done, v)) := by
    intro vm a v' he hc hr
    simp only [Prod.mk.injEq, Except.ok.injEq] at he
    obtain ⟨ha, hv⟩ := he
    subst ha
    subst hv
    exact ⟨hr, fun _ => hc⟩
  refine ⟨hbal, hspl, ?_⟩
  exact (c1_process_line_stack_discipline (fun v => (.ok .Done, v))
    ⟨fun _ v => (.ok (), { v with return_stack := [] }),
      fun _ v => (.ok (), { v with return_stack := [] }),
      fun _ v => (.ok (), { v with return_stack := [] })⟩
    1 ⟨[], [], [], [], 10⟩ ⟨[], [], [], OK_PROMPT, 10⟩ (.ok ())
    hbal hspl rfl rfl rfl).2 rfl

end Forth3
